import Mathlib

/-!
Verification of the conversation-orchestration core of the
caravan-of-knowledge WhatsApp bot.

The development shallowly embeds:
 * `src/chat_memory.py` (`ChatMemory`): the two-tier conversation store
   (Redis hot tier with an in-memory fallback, plus a best-effort
   PostgreSQL durable tier, `src/database.py`);
 * `src/ai_agent.py` (`AIAgent.process_message`, `AIAgent._run_agent_loop`):
   the bounded tool-calling loop against the model gateway;
 * `src/agent_tools.py` (`execute_tool`): tool dispatch and error
   normalization.

External effects (the Redis connection, the SQL session, the HTTP client,
the tool bodies, wall-clock timestamps) are modelled as explicit state or
as oracle parameters; everything else follows the Python source line by
line.
-/

namespace Caravan

/-- One entry of the hot-tier history: the dict
`{"role": .., "content": .., "timestamp": ..}` built in
`ChatMemory.add_message` (src/chat_memory.py:34-38).  The timestamp string
(`datetime.now().isoformat()`) is supplied by the caller as an opaque
string. -/
structure StoredMsg where
  role : String
  content : String
  timestamp : String
  deriving Repr, DecidableEq

/-- One row of the durable `chat_messages` table
(src/database.py:12-28), without the autoincrement id. -/
structure DbRow where
  phone_number : String
  role : String
  content : String
  deriving Repr, DecidableEq

/-- The state of the two storage tiers behind `ChatMemory`.
`useRedis` records whether the Redis connection succeeded at startup
(src/chat_memory.py:16-25); `store` models either the Redis keyspace
(key `chat_history:<phone>`, JSON round-trip elided) or the
`_in_memory_storage` dict, both read as "list for this phone, default
empty".  `dbEnabled` mirrors `Database.enabled`, and `dbLog` is the
`chat_messages` table in insertion (= timestamp) order. -/
structure MemState where
  useRedis : Bool
  maxMessages : Nat
  dbEnabled : Bool
  store : String → List StoredMsg
  dbLog : List DbRow

/-- The last `k` elements of a list (`drop (length - k)`).  This is the
reading of the durable tier's `ORDER BY timestamp DESC ... LIMIT k` then
reverse (src/database.py:104-113), where `LIMIT 0` yields no rows.  It is
NOT Python slicing at `k = 0`: see `lastSlice`. -/
def lastN (k : Nat) (xs : List α) : List α := xs.drop (xs.length - k)

/-- Python list slicing `xs[-k:]` for a non-negative `k`: for positive
`k` the last `k` elements, but `xs[-0:]` is `xs[0:]` — the WHOLE list.
This is the truncation `history[-self.max_messages_per_chat:]` used in
`ChatMemory.add_message` (src/chat_memory.py:48,66), which therefore
retains every entry when the configured bound is 0. -/
def lastSlice (k : Nat) (xs : List α) : List α :=
  if k = 0 then xs else lastN k xs

/-- `ChatMemory.get_chat_history` (src/chat_memory.py:77-95).  On the
Redis path it GETs the key and `json.loads` it (absent key gives `[]`);
on the in-memory path it is `dict.get(phone, [])`.  Both are the `store`
lookup. -/
def get_chat_history (st : MemState) (phone : String) : List StoredMsg :=
  if st.useRedis then st.store phone else st.store phone

/-- `Database.save_message` (src/database.py:74-96).  Disabled or failed
writes return without touching the table and never raise (the body is
wrapped in try/except); `writeOk` is the oracle for whether the INSERT
commits. -/
def db_save_message (dbEnabled : Bool) (dbLog : List DbRow)
    (phone role content : String) (writeOk : Bool) : List DbRow :=
  if dbEnabled && writeOk then dbLog ++ [⟨phone, role, content⟩] else dbLog

/-- `Database.get_chat_history` (src/database.py:98-118): rows for this
phone, ordered by timestamp descending, limited, then reversed — i.e. the
last `limit` rows for the phone in chronological order.  Disabled gives
`[]`. -/
def db_get_chat_history (dbEnabled : Bool) (dbLog : List DbRow)
    (phone : String) (limit : Nat) : List DbRow :=
  if dbEnabled then lastN limit (dbLog.filter (fun r => r.phone_number == phone))
  else []

/-- `ChatMemory.add_message` (src/chat_memory.py:31-75).  The hot-tier
write happens first (read current list, append, truncate to the last
`max_messages_per_chat` when longer, rewrite); then, independently, a
best-effort durable write via `db.save_message` when `db.enabled`.
`ts` is the `datetime.now().isoformat()` string; `dbWriteOk` is the
durable-write oracle. -/
def add_message (st : MemState) (phone role content ts : String)
    (dbWriteOk : Bool) : MemState :=
  let msg : StoredMsg := ⟨role, content, ts⟩
  let st1 :=
    if st.useRedis then
      let history := get_chat_history st phone
      let history := history ++ [msg]
      let history :=
        if history.length > st.maxMessages then lastSlice st.maxMessages history
        else history
      { st with store := fun q => if q = phone then history else st.store q }
    else
      let cur := st.store phone
      let cur := cur ++ [msg]
      let cur :=
        if cur.length > st.maxMessages then lastSlice st.maxMessages cur
        else cur
      { st with store := fun q => if q = phone then cur else st.store q }
  { st1 with dbLog := db_save_message st1.dbEnabled st1.dbLog phone role content dbWriteOk }

/-- `ChatMemory.get_messages_for_gpt` (src/chat_memory.py:97-109):
hot-tier history projected to `{"role", "content"}` pairs. -/
def get_messages_for_gpt (st : MemState) (phone : String) : List (String × String) :=
  (get_chat_history st phone).map (fun m => (m.role, m.content))

/-- `ChatMemory.clear_chat_history` (src/chat_memory.py:111-124): deletes
the hot-tier key only; the durable log is untouched. -/
def clear_chat_history (st : MemState) (phone : String) : MemState :=
  { st with store := fun q => if q = phone then [] else st.store q }

/-- `ChatMemory.is_first_message` (src/chat_memory.py:144-147). -/
def is_first_message (st : MemState) (phone : String) : Bool :=
  (get_chat_history st phone).length == 0

/-- The two possible shapes returned by
`ChatMemory.get_full_history_from_db`: durable rows (with ids and
timestamps in the source) or hot-tier message dicts. -/
inductive HistEntry where
  | dbRow (r : DbRow)
  | hotMsg (m : StoredMsg)
  deriving Repr, DecidableEq

/-- `ChatMemory.get_full_history_from_db` (src/chat_memory.py:149-155):
reads the durable tier when `db.enabled`; otherwise it falls back to the
hot-tier history ("returning Redis history only"). -/
def get_full_history_from_db (st : MemState) (phone : String) (limit : Nat) :
    List HistEntry :=
  if st.dbEnabled then
    (db_get_chat_history st.dbEnabled st.dbLog phone limit).map .dbRow
  else
    (get_chat_history st phone).map .hotMsg

/-! ### The tool-calling agent (`src/ai_agent.py`, `src/agent_tools.py`) -/

/-- The JSON object decoded from `tool_call["function"]["arguments"]`,
as an ordered key/value association (values kept opaque as strings);
`json.loads` of a non-object is out of scope for the claims. -/
abbrev ArgsObj := List (String × String)

/-- `"user_phone" in tool_args` (Python dict key membership). -/
def hasKey (a : ArgsObj) (k : String) : Bool :=
  a.any (fun kv => kv.1 == k)

/-- A `tool_calls[i]` entry of a model response: its id, function name,
and the decoded arguments — `none` when the raw `arguments` string is not
valid JSON, so that `json.loads` raises (src/ai_agent.py:179). -/
structure ToolCall where
  id : String
  name : String
  args : Option ArgsObj
  deriving DecidableEq, Repr

/-- One message of `current_messages`, mirroring the OpenAI chat dicts
built in `process_message` and `_run_agent_loop`. -/
structure Msg where
  role : String
  content : String
  toolCalls : List ToolCall := []
  toolCallId : Option String := none
  name : Option String := none
  deriving DecidableEq, Repr

/-- The outcome of one model query in `_run_agent_loop`
(src/ai_agent.py:152-166).  `netError` is `client.post` itself raising
(httpx connect/timeout failure, src/ai_agent.py:153) — the loop has no
try/except, so that exception escapes it; `httpError` is a completed POST
with a non-200 status (src/ai_agent.py:155-157); otherwise the assistant
message arrives with its (possibly empty or absent, both falsy)
`tool_calls`. -/
inductive ModelResponse where
  | netError
  | httpError
  | assistant (content : String) (toolCalls : List ToolCall)
  deriving DecidableEq, Repr

/-- The normalized tool-result dict shapes produced by `execute_tool` and
the tool bodies in src/agent_tools.py: a `success` flag plus optional
`error` / `result` strings (further payload keys are elided). -/
structure ToolResult where
  success : Bool
  error : Option String := none
  result : Option String := none
  deriving DecidableEq, Repr

/-- The executor oracle standing for the bodies in `TOOL_FUNCTIONS`
(src/agent_tools.py:301-306): applied to a known tool name and its
(keyword) arguments, it either returns a result dict or raises, with the
exception text carried in `.error`. -/
def ToolExec := String → ArgsObj → Except String ToolResult

/-- The four registered tool names, the keys of `TOOL_FUNCTIONS`. -/
def knownTools : List String :=
  ["search_knowledge_base", "register_student", "notify_manager", "get_current_date"]

/-- `execute_tool` (src/agent_tools.py:309-330): unknown names get a
structured failure without invoking anything; known names invoke the
executor with all exceptions normalized to `{success: False, error: str(e)}`. -/
def execute_tool (exec : ToolExec) (toolName : String) (toolArgs : ArgsObj) :
    ToolResult :=
  if toolName ∉ knownTools then
    { success := false, error := some ("Unknown tool: " ++ toolName) }
  else
    match exec toolName toolArgs with
    | .ok r => r
    | .error e => { success := false, error := some e }

/-- `json.dumps(tool_result, ensure_ascii=False)` for the tool message
content (src/ai_agent.py:196): a fixed rendering of the result dict. -/
def renderToolResult (r : ToolResult) : String :=
  "success=" ++ (if r.success then "True" else "False") ++
  ";error=" ++ (match r.error with | some e => e | none => "None") ++
  ";result=" ++ (match r.result with | some s => s | none => "None")

/-- The fixed strings returned by the orchestrator. -/
def exhaustedText : String :=
  "Обрабатываю ваш запрос, но это занимает больше времени чем ожидалось. Попробуйте уточнить вопрос."

def serviceUnavailableText : String :=
  "Извините, сервис временно недоступен."

def processingErrorText : String :=
  "Извините, произошла ошибка обработки. Попробуйте позже."

/-- The assistant message dict appended to `current_messages`
(src/ai_agent.py:163). -/
def asstMsg (content : String) (toolCalls : List ToolCall) : Msg :=
  { role := "assistant", content := content, toolCalls := toolCalls }

/-- The tool-result message dict appended to `current_messages`
(src/ai_agent.py:192-197). -/
def toolMsg (tc : ToolCall) (r : ToolResult) : Msg :=
  { role := "tool", content := renderToolResult r,
    toolCallId := some tc.id, name := some tc.name }

/-- The result of `_run_agent_loop`: the returned string or a raised
exception (`.error`), together with the number of model queries issued,
the final `current_messages`, and the trace of `execute_tool`
invocations actually dispatched (name and arguments as passed). -/
structure LoopOut where
  result : Except Unit String
  queries : Nat
  messages : List Msg
  dispatched : List (String × ArgsObj)
  deriving Repr

/-- The `for tool_call in tool_calls` body (src/ai_agent.py:177-199):
decode the arguments (raising on invalid JSON), inject `user_phone` for
`notify_manager` when absent, dispatch through `execute_tool`, and append
the tool message.  Returns the extended messages and dispatch trace, or
`.error ()` when `json.loads` raised. -/
def processToolCalls (exec : ToolExec) (phone : String) :
    List ToolCall → List Msg → List (String × ArgsObj) →
    Except Unit (List Msg × List (String × ArgsObj))
  | [], msgs, disp => .ok (msgs, disp)
  | tc :: rest, msgs, disp =>
    match tc.args with
    | none => .error ()
    | some a =>
      let a :=
        if tc.name = "notify_manager" ∧ ¬ hasKey a ("user_phone") then
          a ++ [("user_phone", phone)]
        else a
      let r := execute_tool exec tc.name a
      let msgs := msgs ++ [toolMsg tc r]
      processToolCalls exec phone rest msgs (disp ++ [(tc.name, a)])

/-- The `while iteration < max_iterations` loop of `_run_agent_loop`
(src/ai_agent.py:139-203), with `fuel = max_iterations - iteration`
remaining queries and `queriesDone` issued so far.  `responses i` is the
model gateway's answer to the `i`-th query (0-based). -/
def runLoopAux (exec : ToolExec) (responses : Nat → ModelResponse)
    (phone : String) :
    List Msg → Nat → Nat → List (String × ArgsObj) → LoopOut
  | msgs, queriesDone, 0, disp =>
    ⟨.ok exhaustedText, queriesDone, msgs, disp⟩
  | msgs, queriesDone, fuel + 1, disp =>
    match responses queriesDone with
    | .netError =>
      ⟨.error (), queriesDone + 1, msgs, disp⟩
    | .httpError =>
      ⟨.ok serviceUnavailableText, queriesDone + 1, msgs, disp⟩
    | .assistant content toolCalls =>
      let msgs := msgs ++ [asstMsg content toolCalls]
      if toolCalls.isEmpty then
        ⟨.ok content, queriesDone + 1, msgs, disp⟩
      else
        match processToolCalls exec phone toolCalls msgs disp with
        | .error () => ⟨.error (), queriesDone + 1, msgs, disp⟩
        | .ok (msgs', disp') =>
          runLoopAux exec responses phone msgs' (queriesDone + 1) fuel disp'

/-- `AIAgent._run_agent_loop(messages, phone_number, max_iterations)`
(src/ai_agent.py:118-203). -/
def run_agent_loop (exec : ToolExec) (responses : Nat → ModelResponse)
    (messages : List Msg) (phone : String) (maxIterations : Nat := 5) :
    LoopOut :=
  runLoopAux exec responses phone messages 0 maxIterations []

/-- `AIAgent.process_message` on the enabled path
(src/ai_agent.py:37-116): build the prompt stack from the system prompt,
the hot-tier history and the user message, run the agent loop, and — only
when the loop returned normally — append the user and assistant turns to
the conversation store.  Any exception escaping the loop is caught and
turned into the fixed apology text with the store untouched.
`ts1`/`ts2` are the two `datetime.now()` stamps, `dbOk1`/`dbOk2` the
durable-write oracles of the two appends. -/
def promptStack (st : MemState) (phone systemPrompt userMessage : String) :
    List Msg :=
  [{ role := "system", content := systemPrompt }] ++
  (get_messages_for_gpt st phone).map (fun rc => { role := rc.1, content := rc.2 }) ++
  [{ role := "user", content := userMessage }]

def process_message (exec : ToolExec) (responses : Nat → ModelResponse)
    (st : MemState) (userMessage phone systemPrompt : String)
    (ts1 ts2 : String) (dbOk1 dbOk2 : Bool) : String × MemState :=
  let out := run_agent_loop exec responses
    (promptStack st phone systemPrompt userMessage) phone 5
  match out.result with
  | .error () => (processingErrorText, st)
  | .ok response =>
    let st := add_message st phone "user" userMessage ts1 dbOk1
    let st := add_message st phone "assistant" response ts2 dbOk2
    (response, st)

/-! ### Auxiliary definitions for the claims -/

/-- One `add_message` call, for reasoning about arbitrary operation
sequences.  Interleaved reads need no representation: every read of the
embedding (`get_chat_history`, `is_first_message`, ...) is a pure
function of the state. -/
structure AddOp where
  phone : String
  role : String
  content : String
  ts : String
  dbOk : Bool

/-- Replay a sequence of `add_message` calls against a store state. -/
def applyOps (st : MemState) (ops : List AddOp) : MemState :=
  ops.foldl (fun s o => add_message s o.phone o.role o.content o.ts o.dbOk) st

/-- The hot-tier entries that a sequence of `add_message` calls submits
for a given phone, in call order. -/
def hotInputs (ops : List AddOp) (p : String) : List StoredMsg :=
  (ops.filter (fun o => o.phone == p)).map (fun o => ⟨o.role, o.content, o.ts⟩)

/-- A model response that requests at least one tool call and all of
whose argument strings decode as JSON (so `json.loads` succeeds on each
of them). -/
def wfToolResp (r : ModelResponse) : Prop :=
  ∃ content tcs, r = ModelResponse.assistant content tcs ∧ tcs ≠ [] ∧
    ∀ tc ∈ tcs, tc.args.isSome

/-- Specification-side description of argument handling, written from the
claim's words rather than from the source: an invocation of
`notify_manager` lacking the key `user_phone` gets the current phone
number inserted under that key; every other invocation is dispatched
with its decoded arguments unchanged.  Compared against
`processToolCalls` in the refinement theorem for C9. -/
def specDispatchOf (phone : String) (tcs : List ToolCall) :
    List (String × ArgsObj) :=
  tcs.filterMap fun tc => tc.args.map fun a =>
    (tc.name,
     if tc.name = "notify_manager" ∧ ¬ hasKey a ("user_phone") then
       a ++ [("user_phone", phone)]
     else a)

/-- The dispatch trace of a tool-processing outcome: `none` when
`json.loads` raised, otherwise the list of `execute_tool` invocations. -/
def dispatchOf (r : Except Unit (List Msg × List (String × ArgsObj))) :
    Option (List (String × ArgsObj)) :=
  match r with
  | .ok (_, d) => some d
  | .error _ => none

/-! ### Concrete instances used by witnesses and counterexamples -/

/-- An executor oracle that always succeeds. -/
def exec₀ : ToolExec := fun _ _ => .ok { success := true }

/-- A model gateway that, on every query, requests one tool call whose
raw `arguments` string is not valid JSON. -/
def responses₀ : Nat → ModelResponse :=
  fun _ => .assistant "" [{ id := "call_1", name := "get_current_date", args := none }]

/-- A model gateway that, on every query, requests one well-formed tool
call (decodable arguments) and never produces a final answer. -/
def responsesTools : Nat → ModelResponse :=
  fun _ => .assistant "" [{ id := "call_1", name := "get_current_date", args := some [] }]

/-- A model gateway whose every query completes with a non-200 status. -/
def responsesHttp : Nat → ModelResponse := fun _ => .httpError

/-- A model gateway whose every query raises inside `client.post`. -/
def responsesNet : Nat → ModelResponse := fun _ => .netError

/-- A model gateway that immediately returns a final answer. -/
def responsesFinal : Nat → ModelResponse := fun _ => .assistant "Привет!" []

/-- An empty two-tier store on the in-memory fallback path with the
default bound of 20 and the durable tier disabled. -/
def st₀ : MemState := ⟨false, 20, false, fun _ => [], []⟩

/-- An empty in-memory store configured with `MAX_CHAT_HISTORY=0`. -/
def stZero : MemState := ⟨false, 0, false, fun _ => [], []⟩

/-- A store with the durable tier disabled whose hot tier already holds
one message for phone `"87001112233"`. -/
def stHot : MemState :=
  ⟨true, 20, false,
   fun q => if q = "87001112233" then [⟨"user", "hi", "t0"⟩] else [], []⟩

/-- A store with the durable tier enabled and one durable row. -/
def stDb : MemState :=
  ⟨false, 20, true, fun _ => [], [⟨"87001112233", "user", "hi"⟩]⟩

/-! ### Lemmas about `lastN` -/

theorem lastN_length_le (k : Nat) (xs : List α) : (lastN k xs).length ≤ k := by
  simp [lastN]; omega

theorem lastN_of_le {k : Nat} {xs : List α} (h : xs.length ≤ k) : lastN k xs = xs := by
  simp [lastN, Nat.sub_eq_zero_of_le h]

theorem lastN_append_right {k : Nat} {zs : List α} (ys : List α)
    (h : k ≤ zs.length) : lastN k (ys ++ zs) = lastN k zs := by
  unfold lastN
  rw [List.length_append]
  have h2 : ys.length + zs.length - k = ys.length + (zs.length - k) := by omega
  rw [h2, List.drop_append]

theorem lastN_lastN_append (k : Nat) (xs ys : List α) :
    lastN k (lastN k xs ++ ys) = lastN k (xs ++ ys) := by
  by_cases h : xs.length ≤ k
  · rw [lastN_of_le h]
  · have hlen : (lastN k xs).length = k := by simp [lastN]; omega
    have hk : k ≤ (lastN k xs ++ ys).length := by
      rw [List.length_append, hlen]; omega
    have hsplit : xs ++ ys = xs.take (xs.length - k) ++ (lastN k xs ++ ys) := by
      rw [← List.append_assoc]
      unfold lastN
      rw [List.take_append_drop]
    rw [hsplit, lastN_append_right _ hk]

theorem truncIf_eq_lastN (k : Nat) (xs : List α) :
    (if xs.length > k then lastN k xs else xs) = lastN k xs := by
  split
  · rfl
  · exact (lastN_of_le (by omega)).symm

theorem lastSlice_zero (xs : List α) : lastSlice 0 xs = xs := rfl

theorem lastSlice_eq_lastN {k : Nat} (hk : 0 < k) (xs : List α) :
    lastSlice k xs = lastN k xs := by
  unfold lastSlice
  rw [if_neg (by omega)]

theorem lastSlice_of_le {k : Nat} {xs : List α} (h : xs.length ≤ k) :
    lastSlice k xs = xs := by
  by_cases hk : k = 0
  · subst hk; rfl
  · rw [lastSlice_eq_lastN (by omega)]
    exact lastN_of_le h

theorem truncIf_eq_lastSlice (k : Nat) (xs : List α) :
    (if xs.length > k then lastSlice k xs else xs) = lastSlice k xs := by
  by_cases hk : k = 0
  · subst hk; simp [lastSlice_zero]
  · rw [lastSlice_eq_lastN (by omega)]
    split
    · rfl
    · exact (lastN_of_le (by omega)).symm

theorem lastSlice_lastSlice_append (k : Nat) (xs ys : List α) :
    lastSlice k (lastSlice k xs ++ ys) = lastSlice k (xs ++ ys) := by
  by_cases hk : k = 0
  · subst hk; simp [lastSlice_zero]
  · rw [lastSlice_eq_lastN (by omega), lastSlice_eq_lastN (by omega),
      lastSlice_eq_lastN (by omega)]
    exact lastN_lastN_append k xs ys

theorem lastN_concat_ne_nil {k : Nat} (hk : 0 < k) (xs : List α) (m : α) :
    lastN k (xs ++ [m]) ≠ [] := by
  have : (lastN k (xs ++ [m])).length ≠ 0 := by
    simp [lastN]; omega
  intro h
  exact this (by rw [h]; rfl)

theorem lastN_concat_getLast {k : Nat} (hk : 0 < k) (xs : List α) (m : α) :
    (lastN k (xs ++ [m])).getLast? = some m := by
  unfold lastN
  have hle : (xs ++ [m]).length - k ≤ xs.length := by simp; omega
  rw [List.drop_append_of_le_length hle]
  simp

/-! ### Lemmas about the two-tier store -/

theorem add_message_maxMessages (st : MemState) (p r c ts : String) (ok : Bool) :
    (add_message st p r c ts ok).maxMessages = st.maxMessages := by
  unfold add_message
  by_cases h : st.useRedis <;> simp [h]

theorem add_message_useRedis (st : MemState) (p r c ts : String) (ok : Bool) :
    (add_message st p r c ts ok).useRedis = st.useRedis := by
  unfold add_message
  by_cases h : st.useRedis <;> simp [h]

theorem add_message_dbEnabled (st : MemState) (p r c ts : String) (ok : Bool) :
    (add_message st p r c ts ok).dbEnabled = st.dbEnabled := by
  unfold add_message
  by_cases h : st.useRedis <;> simp [h]

theorem get_add_message_self (st : MemState) (p r c ts : String) (ok : Bool) :
    get_chat_history (add_message st p r c ts ok) p =
      lastSlice st.maxMessages (get_chat_history st p ++ [⟨r, c, ts⟩]) := by
  unfold add_message get_chat_history
  by_cases h : st.useRedis <;>
    simp [h, get_chat_history, truncIf_eq_lastSlice] <;>
    exact fun hle => (lastSlice_of_le (by simpa using hle)).symm

theorem get_add_message_self_pos (st : MemState) (p r c ts : String) (ok : Bool)
    (hmax : 0 < st.maxMessages) :
    get_chat_history (add_message st p r c ts ok) p =
      lastN st.maxMessages (get_chat_history st p ++ [⟨r, c, ts⟩]) := by
  rw [get_add_message_self, lastSlice_eq_lastN hmax]

theorem get_add_message_other (st : MemState) (p r c ts : String) (ok : Bool)
    {q : String} (hq : q ≠ p) :
    get_chat_history (add_message st p r c ts ok) q = get_chat_history st q := by
  unfold add_message get_chat_history
  by_cases h : st.useRedis <;> simp [h, hq]

theorem applyOps_maxMessages (ops : List AddOp) (st : MemState) :
    (applyOps st ops).maxMessages = st.maxMessages := by
  induction ops generalizing st with
  | nil => rfl
  | cons o rest ih =>
    show (applyOps (add_message st o.phone o.role o.content o.ts o.dbOk) rest).maxMessages
      = st.maxMessages
    rw [ih, add_message_maxMessages]

theorem get_applyOps (ops : List AddOp) (st : MemState) (p : String)
    (hpos : 0 < st.maxMessages)
    (h : (get_chat_history st p).length ≤ st.maxMessages) :
    get_chat_history (applyOps st ops) p =
      lastN st.maxMessages (get_chat_history st p ++ hotInputs ops p) := by
  induction ops generalizing st with
  | nil =>
    simp [applyOps, hotInputs, lastN_of_le h]
  | cons o rest ih =>
    show get_chat_history
        (applyOps (add_message st o.phone o.role o.content o.ts o.dbOk) rest) p = _
    by_cases hp : o.phone = p
    · subst hp
      have hmax := add_message_maxMessages st o.phone o.role o.content o.ts o.dbOk
      have hget := get_add_message_self_pos st o.phone o.role o.content o.ts o.dbOk hpos
      have hlen : (get_chat_history
          (add_message st o.phone o.role o.content o.ts o.dbOk) o.phone).length
          ≤ (add_message st o.phone o.role o.content o.ts o.dbOk).maxMessages := by
        rw [hget, hmax]; exact lastN_length_le _ _
      rw [ih _ (by rw [hmax]; exact hpos) hlen, hmax, hget, lastN_lastN_append]
      have hhot : hotInputs (o :: rest) o.phone
          = ⟨o.role, o.content, o.ts⟩ :: hotInputs rest o.phone := by
        simp [hotInputs]
      calc lastN st.maxMessages
            (get_chat_history st o.phone ++ [⟨o.role, o.content, o.ts⟩]
              ++ hotInputs rest o.phone)
          = lastN st.maxMessages (get_chat_history st o.phone
              ++ (⟨o.role, o.content, o.ts⟩ :: hotInputs rest o.phone)) := by
            rw [List.append_assoc]; rfl
        _ = _ := by rw [← hhot]
    · have hq : p ≠ o.phone := fun hh => hp hh.symm
      have hmax := add_message_maxMessages st o.phone o.role o.content o.ts o.dbOk
      have hget := get_add_message_other st o.phone o.role o.content o.ts o.dbOk hq
      have hlen : (get_chat_history
          (add_message st o.phone o.role o.content o.ts o.dbOk) p).length
          ≤ (add_message st o.phone o.role o.content o.ts o.dbOk).maxMessages := by
        rw [hget, hmax]; exact h
      rw [ih _ (by rw [hmax]; exact hpos) hlen, hmax, hget]
      have hhot : hotInputs (o :: rest) p = hotInputs rest p := by
        simp [hotInputs, hp]
      rw [hhot]

/-- C2, counterexample to the claim as stated: with `MAX_CHAT_HISTORY=0`
the truncation `history[-0:]` retains the whole list, so after two
appends the hot-tier history has length 2, exceeding the configured
bound 0. -/
theorem hot_tier_bound_c2_counterexample :
    stZero.maxMessages = 0 ∧
    get_chat_history (applyOps stZero
        [⟨"p1", "user", "a", "t1", false⟩, ⟨"p1", "user", "b", "t2", false⟩]) ("p1")
      = [⟨"user", "a", "t1"⟩, ⟨"user", "b", "t2"⟩] ∧
    ¬ ((get_chat_history (applyOps stZero
        [⟨"p1", "user", "a", "t1", false⟩, ⟨"p1", "user", "b", "t2", false⟩]) ("p1")).length
      ≤ stZero.maxMessages) :=
  ⟨rfl, by decide, by decide⟩

/-- C2 (amended): provided the configured bound `max_messages_per_chat`
is positive — the default is 20; with a zero bound Python's `history[-0:]`
retains everything and the history grows without bound — after any
sequence of `add_message` calls (with any interleaved reads, which are
pure functions of the state in this embedding) the hot-tier history
returned by `get_chat_history` for a phone is exactly the last
`max_messages_per_chat` messages appended for that phone in insertion
order, and in particular its length never exceeds the bound; this holds
for both the Redis path (`useRedis = true`) and the in-memory fallback
path, and with the durable tier enabled or disabled. -/
theorem hot_tier_bound_c2 (useRedis dbEnabled : Bool) (maxMessages : Nat)
    (hmax : 0 < maxMessages) (ops : List AddOp) (p : String) :
    get_chat_history (applyOps ⟨useRedis, maxMessages, dbEnabled, fun _ => [], []⟩ ops) p
      = lastN maxMessages (hotInputs ops p) ∧
    (get_chat_history (applyOps ⟨useRedis, maxMessages, dbEnabled, fun _ => [], []⟩ ops) p).length
      ≤ maxMessages := by
  have h0 : get_chat_history ⟨useRedis, maxMessages, dbEnabled, fun _ => [], []⟩ p = [] := by
    simp [get_chat_history]
  have hmain := get_applyOps ops ⟨useRedis, maxMessages, dbEnabled, fun _ => [], []⟩ p
    hmax (by rw [h0]; simp)
  rw [h0, List.nil_append] at hmain
  exact ⟨hmain, by rw [hmain]; exact lastN_length_le _ _⟩

/-- Witness for the amended C2: with bound 2 and three appends for one
phone, the hot tier holds exactly the last two in order. -/
theorem hot_tier_bound_c2_witness :
    get_chat_history (applyOps ⟨false, 2, false, fun _ => [], []⟩
        [⟨"p1", "user", "a", "t1", false⟩, ⟨"p1", "assistant", "b", "t2", false⟩,
         ⟨"p1", "user", "c", "t3", false⟩]) ("p1")
      = [⟨"assistant", "b", "t2"⟩, ⟨"user", "c", "t3"⟩] := by
  have h := (hot_tier_bound_c2 false false 2 (by omega)
    [⟨"p1", "user", "a", "t1", false⟩, ⟨"p1", "assistant", "b", "t2", false⟩,
     ⟨"p1", "user", "c", "t3", false⟩] ("p1")).1
  rw [h]
  decide

theorem get_add_add (st : MemState) (p r1 c1 t1 r2 c2 t2 : String) (o1 o2 : Bool) :
    get_chat_history (add_message (add_message st p r1 c1 t1 o1) p r2 c2 t2 o2) p
      = lastSlice st.maxMessages
          (get_chat_history st p ++ [⟨r1, c1, t1⟩, ⟨r2, c2, t2⟩]) := by
  rw [get_add_message_self, add_message_maxMessages, get_add_message_self,
    lastSlice_lastSlice_append, List.append_assoc]
  rfl

theorem get_add_add_other (st : MemState) (p r1 c1 t1 r2 c2 t2 : String)
    (o1 o2 : Bool) {q : String} (hq : q ≠ p) :
    get_chat_history (add_message (add_message st p r1 c1 t1 o1) p r2 c2 t2 o2) q
      = get_chat_history st q := by
  rw [get_add_message_other _ _ _ _ _ _ hq, get_add_message_other _ _ _ _ _ _ hq]

/-- C3: `is_first_message` is true exactly when the hot-tier read returns
the empty list; it turns false immediately after any `add_message` for
that phone (for any positive history bound, default 20); clearing the
hot-tier entry — the stand-in for TTL expiry, which the spec declares
equivalent to an empty hot-tier read — makes the user "first" again; and
the answer never consults the durable tier (it is invariant under any
change of `dbEnabled` and of the durable log). -/
theorem is_first_iff_empty_c3 (st : MemState) (p : String) :
    (is_first_message st p = true ↔ get_chat_history st p = []) ∧
    (0 < st.maxMessages → ∀ r c ts ok,
      is_first_message (add_message st p r c ts ok) p = false) ∧
    is_first_message (clear_chat_history st p) p = true ∧
    (∀ b l, is_first_message { st with dbEnabled := b, dbLog := l } p
      = is_first_message st p) := by
  refine ⟨?_, ?_, ?_, ?_⟩
  · simp [is_first_message, List.length_eq_zero]
  · intro hmax r c ts ok
    have hget := get_add_message_self_pos st p r c ts ok hmax
    simp [is_first_message, hget, lastN]
    omega
  · simp [is_first_message, clear_chat_history, get_chat_history]
  · intro b l
    simp [is_first_message, get_chat_history]

/-- Witness for C3 at a concrete state: one `add_message` into the empty
in-memory store with the default bound flips `is_first_message` to
false. -/
theorem is_first_iff_empty_c3_witness :
    is_first_message (add_message st₀ ("87001112233") ("user") ("hi") ("t1") false)
      ("87001112233") = false :=
  (is_first_iff_empty_c3 st₀ ("87001112233")).2.1 (by decide) ("user") ("hi") ("t1") false

/-- C5: `add_message` followed immediately by `get_chat_history` for the
same phone yields a non-empty list whose last element is the appended
(role, content, timestamp); the hot-tier result is identical whatever the
durable tier's enabled flag and whatever the outcome of the durable
write, and the hot-tier store contents are likewise independent of both
(the durable write can neither prevent nor undo the hot-tier write; it
cannot raise, `Database.save_message` returning `False` instead). -/
theorem append_read_last_c5 (st : MemState) (p r c ts : String) (ok : Bool)
    (h : 0 < st.maxMessages) :
    get_chat_history (add_message st p r c ts ok) p ≠ [] ∧
    (get_chat_history (add_message st p r c ts ok) p).getLast? = some ⟨r, c, ts⟩ ∧
    (∀ b ok', get_chat_history (add_message { st with dbEnabled := b } p r c ts ok') p
      = get_chat_history (add_message st p r c ts ok) p) ∧
    (∀ b₁ b₂ o₁ o₂, (add_message { st with dbEnabled := b₁ } p r c ts o₁).store
      = (add_message { st with dbEnabled := b₂ } p r c ts o₂).store) := by
  refine ⟨?_, ?_, ?_, ?_⟩
  · rw [get_add_message_self_pos st p r c ts ok h]; exact lastN_concat_ne_nil h _ _
  · rw [get_add_message_self_pos st p r c ts ok h]; exact lastN_concat_getLast h _ _
  · intro b ok'
    rw [get_add_message_self, get_add_message_self]
    rfl
  · intro b₁ b₂ o₁ o₂
    unfold add_message
    by_cases hr : st.useRedis <;> simp [hr, get_chat_history]

/-- Witness for C5 at a concrete state: appending to the empty in-memory
store and reading back gives the appended message last. -/
theorem append_read_last_c5_witness :
    (get_chat_history (add_message st₀ ("87001112233") ("user") ("hi") ("t1") false)
      ("87001112233")).getLast? = some ⟨"user", "hi", "t1"⟩ :=
  (append_read_last_c5 st₀ ("87001112233") ("user") ("hi") ("t1") false (by decide)).2.1

/-! ### Lemmas about the agent loop -/

theorem runLoopAux_zero (exec : ToolExec) (responses : Nat → ModelResponse)
    (phone : String) (msgs : List Msg) (done : Nat) (disp : List (String × ArgsObj)) :
    runLoopAux exec responses phone msgs done 0 disp
      = ⟨.ok exhaustedText, done, msgs, disp⟩ := by
  simp [runLoopAux]

theorem runLoopAux_net (exec : ToolExec) (responses : Nat → ModelResponse)
    (phone : String) (msgs : List Msg) (done fuel : Nat)
    (disp : List (String × ArgsObj)) (h : responses done = .netError) :
    runLoopAux exec responses phone msgs done (fuel + 1) disp
      = ⟨.error (), done + 1, msgs, disp⟩ := by
  simp [runLoopAux, h]

theorem runLoopAux_http (exec : ToolExec) (responses : Nat → ModelResponse)
    (phone : String) (msgs : List Msg) (done fuel : Nat)
    (disp : List (String × ArgsObj)) (h : responses done = .httpError) :
    runLoopAux exec responses phone msgs done (fuel + 1) disp
      = ⟨.ok serviceUnavailableText, done + 1, msgs, disp⟩ := by
  simp [runLoopAux, h]

theorem runLoopAux_final (exec : ToolExec) (responses : Nat → ModelResponse)
    (phone : String) (msgs : List Msg) (done fuel : Nat)
    (disp : List (String × ArgsObj)) {c : String}
    (h : responses done = .assistant c []) :
    runLoopAux exec responses phone msgs done (fuel + 1) disp
      = ⟨.ok c, done + 1, msgs ++ [asstMsg c []], disp⟩ := by
  simp [runLoopAux, h]

theorem runLoopAux_tools_ok (exec : ToolExec) (responses : Nat → ModelResponse)
    (phone : String) (msgs : List Msg) (done fuel : Nat)
    (disp : List (String × ArgsObj)) {c : String} {hd : ToolCall} {tl : List ToolCall}
    {msgs1 : List Msg} {disp1 : List (String × ArgsObj)}
    (h : responses done = .assistant c (hd :: tl))
    (hok : processToolCalls exec phone (hd :: tl)
      (msgs ++ [asstMsg c (hd :: tl)]) disp = .ok (msgs1, disp1)) :
    runLoopAux exec responses phone msgs done (fuel + 1) disp
      = runLoopAux exec responses phone msgs1 (done + 1) fuel disp1 := by
  simp [runLoopAux, h, hok]

theorem runLoopAux_tools_error (exec : ToolExec) (responses : Nat → ModelResponse)
    (phone : String) (msgs : List Msg) (done fuel : Nat)
    (disp : List (String × ArgsObj)) {c : String} {hd : ToolCall} {tl : List ToolCall}
    (h : responses done = .assistant c (hd :: tl))
    (herr : processToolCalls exec phone (hd :: tl)
      (msgs ++ [asstMsg c (hd :: tl)]) disp = .error ()) :
    runLoopAux exec responses phone msgs done (fuel + 1) disp
      = ⟨.error (), done + 1, msgs ++ [asstMsg c (hd :: tl)], disp⟩ := by
  simp [runLoopAux, h, herr]

theorem runLoopAux_queries_ge (exec : ToolExec) (responses : Nat → ModelResponse)
    (phone : String) :
    ∀ (fuel : Nat) (msgs : List Msg) (done : Nat) (disp : List (String × ArgsObj)),
      done ≤ (runLoopAux exec responses phone msgs done fuel disp).queries := by
  intro fuel
  induction fuel with
  | zero => intro msgs done disp; simp [runLoopAux]
  | succ f ih =>
    intro msgs done disp
    cases h : responses done with
    | netError =>
      rw [runLoopAux_net exec responses phone msgs done f disp h]; simp
    | httpError =>
      rw [runLoopAux_http exec responses phone msgs done f disp h]; simp
    | assistant c tcs =>
      cases tcs with
      | nil =>
        rw [runLoopAux_final exec responses phone msgs done f disp h]; simp
      | cons hd tl =>
        cases hpc : processToolCalls exec phone (hd :: tl)
            (msgs ++ [asstMsg c (hd :: tl)]) disp with
        | error e =>
          cases e
          rw [runLoopAux_tools_error exec responses phone msgs done f disp h hpc]
          simp
        | ok pair =>
          obtain ⟨msgs1, disp1⟩ := pair
          rw [runLoopAux_tools_ok exec responses phone msgs done f disp h hpc]
          have := ih msgs1 (done + 1) disp1
          omega

theorem runLoopAux_queries_le (exec : ToolExec) (responses : Nat → ModelResponse)
    (phone : String) :
    ∀ (fuel : Nat) (msgs : List Msg) (done : Nat) (disp : List (String × ArgsObj)),
      (runLoopAux exec responses phone msgs done fuel disp).queries ≤ done + fuel := by
  intro fuel
  induction fuel with
  | zero => intro msgs done disp; simp [runLoopAux]
  | succ f ih =>
    intro msgs done disp
    cases h : responses done with
    | netError =>
      rw [runLoopAux_net exec responses phone msgs done f disp h]; simp
    | httpError =>
      rw [runLoopAux_http exec responses phone msgs done f disp h]; simp
    | assistant c tcs =>
      cases tcs with
      | nil =>
        rw [runLoopAux_final exec responses phone msgs done f disp h]; simp
      | cons hd tl =>
        cases hpc : processToolCalls exec phone (hd :: tl)
            (msgs ++ [asstMsg c (hd :: tl)]) disp with
        | error e =>
          cases e
          rw [runLoopAux_tools_error exec responses phone msgs done f disp h hpc]
          simp
        | ok pair =>
          obtain ⟨msgs1, disp1⟩ := pair
          rw [runLoopAux_tools_ok exec responses phone msgs done f disp h hpc]
          have := ih msgs1 (done + 1) disp1
          omega

theorem processToolCalls_ok (exec : ToolExec) (phone : String) :
    ∀ (tcs : List ToolCall) (msgs : List Msg) (disp : List (String × ArgsObj)),
      (∀ tc ∈ tcs, tc.args.isSome) →
      ∃ t, processToolCalls exec phone tcs msgs disp
        = .ok (msgs ++ t, disp ++ specDispatchOf phone tcs) := by
  intro tcs
  induction tcs with
  | nil =>
    intro msgs disp _
    exact ⟨[], by simp [processToolCalls, specDispatchOf]⟩
  | cons tc rest ih =>
    intro msgs disp h
    obtain ⟨a, ha⟩ := Option.isSome_iff_exists.mp (h tc (List.mem_cons_self _ _))
    obtain ⟨t, ht⟩ := ih (msgs ++ [toolMsg tc (execute_tool exec tc.name
        (if tc.name = "notify_manager" ∧ ¬ hasKey a ("user_phone") then
          a ++ [("user_phone", phone)] else a))])
      (disp ++ [(tc.name,
        if tc.name = "notify_manager" ∧ ¬ hasKey a ("user_phone") then
          a ++ [("user_phone", phone)] else a)])
      (fun x hx => h x (List.mem_cons_of_mem _ hx))
    refine ⟨[toolMsg tc (execute_tool exec tc.name
        (if tc.name = "notify_manager" ∧ ¬ hasKey a ("user_phone") then
          a ++ [("user_phone", phone)] else a))] ++ t, ?_⟩
    simp only [processToolCalls, ha]
    rw [ht, List.append_assoc]
    have hspec : specDispatchOf phone (tc :: rest)
        = (tc.name,
            if tc.name = "notify_manager" ∧ ¬ hasKey a ("user_phone") then
              a ++ [("user_phone", phone)] else a) :: specDispatchOf phone rest := by
      simp [specDispatchOf, ha]
    rw [hspec, List.append_assoc]
    rfl

theorem processToolCalls_error (exec : ToolExec) (phone : String) :
    ∀ (tcs : List ToolCall) (msgs : List Msg) (disp : List (String × ArgsObj)),
      (∃ tc ∈ tcs, tc.args = none) →
      processToolCalls exec phone tcs msgs disp = .error () := by
  intro tcs
  induction tcs with
  | nil => intro msgs disp h; simp at h
  | cons tc rest ih =>
    intro msgs disp h
    cases ha : tc.args with
    | none => simp [processToolCalls, ha]
    | some a =>
      obtain ⟨x, hx, hnone⟩ := h
      rcases List.mem_cons.mp hx with rfl | hmem
      · rw [ha] at hnone; cases hnone
      · simp only [processToolCalls, ha]
        exact ih _ _ ⟨x, hmem, hnone⟩

theorem runLoopAux_messages_extend (exec : ToolExec)
    (responses : Nat → ModelResponse) (phone : String) :
    ∀ (fuel : Nat) (msgs : List Msg) (done : Nat) (disp : List (String × ArgsObj)),
      ∃ t, (runLoopAux exec responses phone msgs done fuel disp).messages
        = msgs ++ t := by
  intro fuel
  induction fuel with
  | zero => intro msgs done disp; exact ⟨[], by simp [runLoopAux]⟩
  | succ f ih =>
    intro msgs done disp
    cases h : responses done with
    | netError =>
      exact ⟨[], by rw [runLoopAux_net exec responses phone msgs done f disp h]; simp⟩
    | httpError =>
      exact ⟨[], by rw [runLoopAux_http exec responses phone msgs done f disp h]; simp⟩
    | assistant c tcs =>
      cases tcs with
      | nil =>
        exact ⟨[asstMsg c []],
          by rw [runLoopAux_final exec responses phone msgs done f disp h]⟩
      | cons hd tl =>
        cases hpc : processToolCalls exec phone (hd :: tl)
            (msgs ++ [asstMsg c (hd :: tl)]) disp with
        | error e =>
          cases e
          exact ⟨[asstMsg c (hd :: tl)],
            by rw [runLoopAux_tools_error exec responses phone msgs done f disp h hpc]⟩
        | ok pair =>
          obtain ⟨msgs1, disp1⟩ := pair
          have hext : ∃ t0, msgs1 = (msgs ++ [asstMsg c (hd :: tl)]) ++ t0 := by
            have hsome : ∀ tc ∈ hd :: tl, tc.args.isSome := by
              intro tc htc
              cases harg : tc.args with
              | none =>
                have := processToolCalls_error exec phone (hd :: tl)
                  (msgs ++ [asstMsg c (hd :: tl)]) disp ⟨tc, htc, harg⟩
                rw [this] at hpc
                cases hpc
              | some a => rfl
            obtain ⟨t0, ht0⟩ := processToolCalls_ok exec phone (hd :: tl)
              (msgs ++ [asstMsg c (hd :: tl)]) disp hsome
            rw [ht0] at hpc
            exact ⟨t0, by cases hpc; rfl⟩
          obtain ⟨t0, rfl⟩ := hext
          obtain ⟨t1, ht1⟩ := ih ((msgs ++ [asstMsg c (hd :: tl)]) ++ t0) (done + 1) disp1
          refine ⟨[asstMsg c (hd :: tl)] ++ t0 ++ t1, ?_⟩
          rw [runLoopAux_tools_ok exec responses phone msgs done f disp h hpc, ht1]
          simp

theorem runLoopAux_wf_lead (exec : ToolExec) (responses : Nat → ModelResponse)
    (phone : String) :
    ∀ (k done fuel : Nat) (msgs : List Msg) (disp : List (String × ArgsObj)),
      (∀ i, i < k → wfToolResp (responses (done + i))) → k ≤ fuel →
      ∃ msgs' disp', runLoopAux exec responses phone msgs done fuel disp
        = runLoopAux exec responses phone msgs' (done + k) (fuel - k) disp' := by
  intro k
  induction k with
  | zero => intro done fuel msgs disp _ _; exact ⟨msgs, disp, by simp⟩
  | succ n ih =>
    intro done fuel msgs disp hwf hk
    obtain ⟨c, tcs, hresp, hne, hsome⟩ := hwf 0 (Nat.succ_pos n)
    rw [Nat.add_zero] at hresp
    obtain ⟨f, rfl⟩ : ∃ f, fuel = f + 1 := ⟨fuel - 1, by omega⟩
    cases tcs with
    | nil => exact absurd rfl hne
    | cons hd tl =>
      obtain ⟨t, hok⟩ := processToolCalls_ok exec phone (hd :: tl)
        (msgs ++ [asstMsg c (hd :: tl)]) disp hsome
      obtain ⟨msgs', disp', heq⟩ := ih (done + 1) f
        ((msgs ++ [asstMsg c (hd :: tl)]) ++ t) (disp ++ specDispatchOf phone (hd :: tl))
        (fun i hi => by
          have hw := hwf (i + 1) (by omega)
          rwa [show done + (i + 1) = done + 1 + i by omega] at hw)
        (by omega)
      refine ⟨msgs', disp', ?_⟩
      rw [runLoopAux_tools_ok exec responses phone msgs done f disp hresp hok, heq,
        show done + 1 + n = done + (n + 1) by omega,
        show f - n = f + 1 - (n + 1) by omega]

theorem runLoopAux_queries_ge_one (exec : ToolExec) (responses : Nat → ModelResponse)
    (phone : String) (fuel : Nat) (msgs : List Msg) (done : Nat)
    (disp : List (String × ArgsObj)) (hf : 1 ≤ fuel) :
    done + 1 ≤ (runLoopAux exec responses phone msgs done fuel disp).queries := by
  obtain ⟨f, rfl⟩ : ∃ f, fuel = f + 1 := ⟨fuel - 1, by omega⟩
  cases h : responses done with
  | netError =>
    rw [runLoopAux_net exec responses phone msgs done f disp h]
  | httpError =>
    rw [runLoopAux_http exec responses phone msgs done f disp h]
  | assistant c tcs =>
    cases tcs with
    | nil =>
      rw [runLoopAux_final exec responses phone msgs done f disp h]
    | cons hd tl =>
      cases hpc : processToolCalls exec phone (hd :: tl)
          (msgs ++ [asstMsg c (hd :: tl)]) disp with
      | error e =>
        cases e
        rw [runLoopAux_tools_error exec responses phone msgs done f disp h hpc]
      | ok pair =>
        obtain ⟨msgs1, disp1⟩ := pair
        rw [runLoopAux_tools_ok exec responses phone msgs done f disp h hpc]
        exact runLoopAux_queries_ge exec responses phone f msgs1 (done + 1) disp1

/-! ### Lemmas about `process_message` -/

theorem process_message_ok (exec : ToolExec) (responses : Nat → ModelResponse)
    (st : MemState) (userMessage phone systemPrompt ts1 ts2 : String)
    (o1 o2 : Bool) {r : String}
    (h : (run_agent_loop exec responses
        (promptStack st phone systemPrompt userMessage) phone 5).result = .ok r) :
    process_message exec responses st userMessage phone systemPrompt ts1 ts2 o1 o2
      = (r, add_message (add_message st phone ("user") userMessage ts1 o1)
              phone ("assistant") r ts2 o2) := by
  simp [process_message, h]

theorem process_message_error (exec : ToolExec) (responses : Nat → ModelResponse)
    (st : MemState) (userMessage phone systemPrompt ts1 ts2 : String)
    (o1 o2 : Bool)
    (h : (run_agent_loop exec responses
        (promptStack st phone systemPrompt userMessage) phone 5).result = .error ()) :
    process_message exec responses st userMessage phone systemPrompt ts1 ts2 o1 o2
      = (processingErrorText, st) := by
  simp [process_message, h]

/-! ### Claim theorems -/

/-- C1, counterexample to the claim as stated: `responses₀` is the
constant gateway that on every query requests exactly one tool call —
whose raw `arguments` string does not decode as JSON — and never a final
answer; yet the loop raises (`json.loads`) instead of returning the fixed
exhaustion string. -/
theorem loop_exhaustion_c1_counterexample :
    responses₀ 0 = .assistant ""
      [{ id := "call_1", name := "get_current_date", args := none }] ∧
    responses₀ 4 = responses₀ 0 ∧
    (run_agent_loop exec₀ responses₀ [] ("87001112233") 5).result = .error () :=
  ⟨rfl, rfl, rfl⟩

/-- C1 (amended): for every initial message list and every response
sequence, the loop with `max_iterations = 5` issues at most 5 model
queries; and when every response requests tool calls with decodable
argument strings (and no final answer), the loop terminates after exactly
5 queries with the fixed exhaustion string — not an exception and not any
partial model output. -/
theorem loop_exhaustion_c1 (exec : ToolExec) (responses : Nat → ModelResponse)
    (phone : String) (messages : List Msg) :
    (run_agent_loop exec responses messages phone 5).queries ≤ 5 ∧
    ((∀ i, i < 5 → wfToolResp (responses i)) →
      (run_agent_loop exec responses messages phone 5).result = .ok exhaustedText ∧
      (run_agent_loop exec responses messages phone 5).queries = 5) := by
  constructor
  · have h := runLoopAux_queries_le exec responses phone 5 messages 0 []
    simpa [run_agent_loop] using h
  · intro hwf
    obtain ⟨msgs', disp', heq⟩ := runLoopAux_wf_lead exec responses phone 5 0 5 messages []
      (fun i hi => by rw [Nat.zero_add]; exact hwf i hi) (le_refl 5)
    unfold run_agent_loop
    rw [heq]
    rw [show (0 : Nat) + 5 = 5 from rfl, show (5 : Nat) - 5 = 0 from rfl,
      runLoopAux_zero]
    exact ⟨rfl, rfl⟩

/-- Witness for the amended C1: the constant gateway requesting one
well-formed tool call per query exhausts the loop into the fixed
message. -/
theorem loop_exhaustion_c1_witness :
    (run_agent_loop exec₀ responsesTools [] ("87001112233") 5).result
      = .ok exhaustedText :=
  ((loop_exhaustion_c1 exec₀ responsesTools ("87001112233") []).2
    (fun _ _ => ⟨"", [{ id := "call_1", name := "get_current_date", args := some [] }],
      rfl, by simp, by simp⟩)).1

/-- C4: the two history appends of a turn happen only after the tool loop
has returned.  If the loop raises, `process_message` returns the fixed
apology and the store is completely untouched; if the loop returns a
final text `r` (including the exhaustion text), the turn's hot-tier
history gains exactly the two entries (user input, assistant `r`) — none
of the intermediate tool-exchange messages — and other phones'
histories are unchanged. -/
theorem turn_persistence_c4 (exec : ToolExec) (responses : Nat → ModelResponse)
    (st : MemState) (userMessage phone systemPrompt ts1 ts2 : String) (o1 o2 : Bool) :
    ((run_agent_loop exec responses
        (promptStack st phone systemPrompt userMessage) phone 5).result = .error () →
      process_message exec responses st userMessage phone systemPrompt ts1 ts2 o1 o2
        = (processingErrorText, st)) ∧
    (∀ r, (run_agent_loop exec responses
        (promptStack st phone systemPrompt userMessage) phone 5).result = .ok r →
      (process_message exec responses st userMessage phone systemPrompt ts1 ts2 o1 o2).1
        = r ∧
      get_chat_history
        (process_message exec responses st userMessage phone systemPrompt ts1 ts2 o1 o2).2
        phone
        = lastSlice st.maxMessages (get_chat_history st phone
            ++ [⟨"user", userMessage, ts1⟩, ⟨"assistant", r, ts2⟩]) ∧
      (∀ q, q ≠ phone →
        get_chat_history
          (process_message exec responses st userMessage phone systemPrompt ts1 ts2 o1 o2).2
          q = get_chat_history st q)) := by
  constructor
  · intro h
    exact process_message_error exec responses st userMessage phone systemPrompt ts1 ts2 o1 o2 h
  · intro r h
    rw [process_message_ok exec responses st userMessage phone systemPrompt ts1 ts2 o1 o2 h]
    refine ⟨rfl, ?_, ?_⟩
    · exact get_add_add st phone ("user") userMessage ts1 ("assistant") r ts2 o1 o2
    · intro q hq
      exact get_add_add_other st phone ("user") userMessage ts1 ("assistant") r ts2 o1 o2 hq

/-- Witness for C4: a gateway that answers immediately leaves exactly the
user and assistant entries in the empty store. -/
theorem turn_persistence_c4_witness :
    get_chat_history (process_message exec₀ responsesFinal st₀ ("Здравствуйте")
      ("87001112233") ("sys") ("t1") ("t2") false false).2 ("87001112233")
      = [⟨"user", "Здравствуйте", "t1"⟩, ⟨"assistant", "Привет!", "t2"⟩] := by
  have h := ((turn_persistence_c4 exec₀ responsesFinal st₀ ("Здравствуйте")
    ("87001112233") ("sys") ("t1") ("t2") false false).2 ("Привет!") rfl).2.1
  rw [h]
  rfl

/-- C6: `execute_tool` on a name outside the fixed registry returns a
`success = false` dict with an error string, raising nothing and never
invoking any executor (the outcome is independent of the executor
oracle); for known tools an executor exception is normalized to the same
failure shape; and when the model requests an unknown tool, the loop
appends the failure as a tool message and proceeds to query the model
again (at least one further query happens when iterations remain). -/
theorem unknown_tool_c6 :
    (∀ (exec exec' : ToolExec) (nm : String) (args : ArgsObj), nm ∉ knownTools →
      execute_tool exec nm args
        = { success := false, error := some ("Unknown tool: " ++ nm) } ∧
      execute_tool exec nm args = execute_tool exec' nm args) ∧
    (∀ (exec : ToolExec) (nm : String) (args : ArgsObj) (e : String),
      nm ∈ knownTools → exec nm args = .error e →
      execute_tool exec nm args = { success := false, error := some e }) ∧
    (∀ (exec : ToolExec) (responses : Nat → ModelResponse) (phone : String)
      (messages : List Msg) (mi : Nat) (c idn nm : String) (a : ArgsObj),
      responses 0 = .assistant c [{ id := idn, name := nm, args := some a }] →
      nm ∉ knownTools → 2 ≤ mi →
      2 ≤ (run_agent_loop exec responses messages phone mi).queries ∧
      toolMsg { id := idn, name := nm, args := some a }
          { success := false, error := some ("Unknown tool: " ++ nm) }
        ∈ (run_agent_loop exec responses messages phone mi).messages) := by
  refine ⟨?_, ?_, ?_⟩
  · intro exec exec' nm args h
    constructor <;> simp [execute_tool, h]
  · intro exec nm args e hmem herr
    simp [execute_tool, hmem, herr]
  · intro exec responses phone messages mi c idn nm a hresp hunk hmi
    have hnotify : nm ≠ "notify_manager" := by
      intro heq
      exact hunk (by rw [heq]; simp [knownTools])
    obtain ⟨m, rfl⟩ : ∃ m, mi = m + 2 := ⟨mi - 2, by omega⟩
    have hpc : processToolCalls exec phone
        [{ id := idn, name := nm, args := some a }]
        (messages ++ [asstMsg c [{ id := idn, name := nm, args := some a }]]) []
        = .ok (messages ++ [asstMsg c [{ id := idn, name := nm, args := some a }]]
                ++ [toolMsg { id := idn, name := nm, args := some a }
                     { success := false, error := some ("Unknown tool: " ++ nm) }],
               [] ++ [(nm, a)]) := by
      simp [processToolCalls, hnotify, execute_tool, hunk]
    have hstep := runLoopAux_tools_ok exec responses phone messages 0 (m + 1) []
      hresp hpc
    unfold run_agent_loop
    rw [hstep]
    constructor
    · exact runLoopAux_queries_ge_one exec responses phone (m + 1) _ 1 _ (by omega)
    · obtain ⟨t, ht⟩ := runLoopAux_messages_extend exec responses phone (m + 1) _ 1 _
      rw [ht]
      simp

/-- Witness for C6: dispatching the unregistered name `foo` gives the
structured failure, whatever the executor. -/
theorem unknown_tool_c6_witness :
    execute_tool exec₀ ("foo") []
      = { success := false, error := some ("Unknown tool: " ++ "foo") } :=
  (unknown_tool_c6.1 exec₀ exec₀ ("foo") [] (by decide)).1

/-- C8, counterexample to the claim as stated: a network failure
(`client.post` raising, src/ai_agent.py:153) does NOT resolve the turn to
a terminal final answer treated like a genuine model answer — the
exception escapes `_run_agent_loop`, `process_message`'s handler
(src/ai_agent.py:114-116) returns the apology text (not the
service-unavailable text a non-200 status produces), and nothing is
logged to history. -/
theorem transport_failure_c8_counterexample :
    (run_agent_loop exec₀ responsesNet [] ("87001112233") 5).result = .error () ∧
    process_message exec₀ responsesNet st₀ ("Привет") ("87001112233") ("sys")
      ("t1") ("t2") false false = (processingErrorText, st₀) ∧
    processingErrorText ≠ serviceUnavailableText :=
  ⟨rfl, rfl, by decide⟩

/-- C8 (amended): after `k < 5` well-formed tool rounds, the two
transport-failure kinds diverge.  A completed model query with a non-OK
HTTP status resolves the turn to the fixed service-unavailable text as a
normal terminal answer, which the orchestrator treats like any genuine
model answer — it is the turn's output text and is appended to history
as the assistant's turn.  A network failure (the POST itself raising)
instead aborts the loop with the exception; `process_message` catches it
and returns the fixed apology text with the store untouched. -/
theorem transport_failure_c8 (exec : ToolExec) (responses : Nat → ModelResponse)
    (phone : String) (k : Nat) (hk : k < 5)
    (hwf : ∀ i, i < k → wfToolResp (responses i)) :
    (responses k = .httpError →
      (∀ messages, (run_agent_loop exec responses messages phone 5).result
          = .ok serviceUnavailableText) ∧
      (∀ (st : MemState) (userMessage systemPrompt ts1 ts2 : String) (o1 o2 : Bool),
        (process_message exec responses st userMessage phone systemPrompt ts1 ts2 o1 o2).1
          = serviceUnavailableText ∧
        get_chat_history
          (process_message exec responses st userMessage phone systemPrompt ts1 ts2 o1 o2).2
          phone
          = lastSlice st.maxMessages (get_chat_history st phone
              ++ [⟨"user", userMessage, ts1⟩,
                  ⟨"assistant", serviceUnavailableText, ts2⟩]))) ∧
    (responses k = .netError →
      (∀ messages, (run_agent_loop exec responses messages phone 5).result
          = .error ()) ∧
      (∀ (st : MemState) (userMessage systemPrompt ts1 ts2 : String) (o1 o2 : Bool),
        process_message exec responses st userMessage phone systemPrompt ts1 ts2 o1 o2
          = (processingErrorText, st))) := by
  constructor
  · intro hhttp
    have hloop : ∀ messages, (run_agent_loop exec responses messages phone 5).result
        = .ok serviceUnavailableText := by
      intro messages
      obtain ⟨msgs', disp', heq⟩ := runLoopAux_wf_lead exec responses phone k 0 5 messages []
        (fun i hi => by rw [Nat.zero_add]; exact hwf i hi) (by omega)
      unfold run_agent_loop
      rw [heq]
      obtain ⟨f, hf⟩ : ∃ f, 5 - k = f + 1 := ⟨5 - k - 1, by omega⟩
      rw [hf, runLoopAux_http exec responses phone msgs' (0 + k) f disp'
        (by rw [Nat.zero_add]; exact hhttp)]
    constructor
    · exact hloop
    · intro st userMessage systemPrompt ts1 ts2 o1 o2
      rw [process_message_ok exec responses st userMessage phone systemPrompt ts1 ts2 o1 o2
        (hloop _)]
      exact ⟨rfl, get_add_add st phone ("user") userMessage ts1 ("assistant")
        serviceUnavailableText ts2 o1 o2⟩
  · intro hnet
    have hloop : ∀ messages, (run_agent_loop exec responses messages phone 5).result
        = .error () := by
      intro messages
      obtain ⟨msgs', disp', heq⟩ := runLoopAux_wf_lead exec responses phone k 0 5 messages []
        (fun i hi => by rw [Nat.zero_add]; exact hwf i hi) (by omega)
      unfold run_agent_loop
      rw [heq]
      obtain ⟨f, hf⟩ : ∃ f, 5 - k = f + 1 := ⟨5 - k - 1, by omega⟩
      rw [hf, runLoopAux_net exec responses phone msgs' (0 + k) f disp'
        (by rw [Nat.zero_add]; exact hnet)]
    constructor
    · exact hloop
    · intro st userMessage systemPrompt ts1 ts2 o1 o2
      exact process_message_error exec responses st userMessage phone systemPrompt
        ts1 ts2 o1 o2 (hloop _)

/-- Witness for the amended C8: a gateway answering the very first query
with a non-200 status makes the loop return the service-unavailable
text. -/
theorem transport_failure_c8_witness :
    (run_agent_loop exec₀ responsesHttp [] ("87001112233") 5).result
      = .ok serviceUnavailableText :=
  ((transport_failure_c8 exec₀ responsesHttp ("87001112233") 0 (by omega)
    (fun i hi => absurd hi (by omega))).1 rfl).1 []

/-- C9: refinement of the loop's dispatch trace against the claim's
description `specDispatchOf`: under decodable arguments the trace equals
the spec's, and in particular a `notify_manager` call lacking
`user_phone` is dispatched with the current phone inserted under that
key, a `notify_manager` call carrying `user_phone` is dispatched
unchanged, and a call to any other tool is dispatched unchanged. -/
theorem notify_phone_injection_c9 (exec : ToolExec) (phone : String) :
    (∀ (tcs : List ToolCall) (msgs : List Msg) (disp : List (String × ArgsObj)),
      (∀ tc ∈ tcs, tc.args.isSome) →
      dispatchOf (processToolCalls exec phone tcs msgs disp)
        = some (disp ++ specDispatchOf phone tcs)) ∧
    (∀ (idn : String) (a : ArgsObj) (msgs : List Msg) (disp : List (String × ArgsObj)),
      hasKey a ("user_phone") = false →
      dispatchOf (processToolCalls exec phone
          [{ id := idn, name := "notify_manager", args := some a }] msgs disp)
        = some (disp ++ [("notify_manager", a ++ [("user_phone", phone)])])) ∧
    (∀ (idn : String) (a : ArgsObj) (msgs : List Msg) (disp : List (String × ArgsObj)),
      hasKey a ("user_phone") = true →
      dispatchOf (processToolCalls exec phone
          [{ id := idn, name := "notify_manager", args := some a }] msgs disp)
        = some (disp ++ [("notify_manager", a)])) ∧
    (∀ (idn nm : String) (a : ArgsObj) (msgs : List Msg) (disp : List (String × ArgsObj)),
      nm ≠ "notify_manager" →
      dispatchOf (processToolCalls exec phone
          [{ id := idn, name := nm, args := some a }] msgs disp)
        = some (disp ++ [(nm, a)])) := by
  have hgen : ∀ (tcs : List ToolCall) (msgs : List Msg) (disp : List (String × ArgsObj)),
      (∀ tc ∈ tcs, tc.args.isSome) →
      dispatchOf (processToolCalls exec phone tcs msgs disp)
        = some (disp ++ specDispatchOf phone tcs) := by
    intro tcs msgs disp h
    obtain ⟨t, ht⟩ := processToolCalls_ok exec phone tcs msgs disp h
    rw [ht]
    rfl
  refine ⟨hgen, ?_, ?_, ?_⟩
  · intro idn a msgs disp hkey
    have h := hgen [{ id := idn, name := "notify_manager", args := some a }] msgs disp
      (by simp)
    rw [h]
    have hspec : specDispatchOf phone [{ id := idn, name := "notify_manager", args := some a }]
        = [("notify_manager", a ++ [("user_phone", phone)])] := by
      simp [specDispatchOf, hkey]
    rw [hspec]
  · intro idn a msgs disp hkey
    have h := hgen [{ id := idn, name := "notify_manager", args := some a }] msgs disp
      (by simp)
    rw [h]
    have hspec : specDispatchOf phone [{ id := idn, name := "notify_manager", args := some a }]
        = [("notify_manager", a)] := by
      simp [specDispatchOf, hkey]
    rw [hspec]
  · intro idn nm a msgs disp hnm
    have h := hgen [{ id := idn, name := nm, args := some a }] msgs disp (by simp)
    rw [h]
    have hspec : specDispatchOf phone [{ id := idn, name := nm, args := some a }]
        = [(nm, a)] := by
      simp [specDispatchOf, hnm]
    rw [hspec]

/-- Witness for C9: a `notify_manager` call without `user_phone` is
dispatched with the caller's phone number appended under that key. -/
theorem notify_phone_injection_c9_witness :
    dispatchOf (processToolCalls exec₀ ("77012345678")
        [{ id := "call_1", name := "notify_manager", args := some [("message", "help")] }]
        [] [])
      = some [("notify_manager", [("message", "help"), ("user_phone", "77012345678")])] := by
  have h := (notify_phone_injection_c9 exec₀ ("77012345678")).2.1 ("call_1")
    [("message", "help")] [] [] (by decide)
  simpa using h

/-- C10: a model response whose requested tool call has an undecodable
`arguments` string makes `json.loads` raise before that call is
dispatched; the raised exception aborts the loop, `process_message`
catches it and returns the fixed apology text, and nothing from the turn
— neither the user input nor any assistant text — reaches the
conversation store (hot or durable tier). -/
theorem invalid_json_c10 (exec : ToolExec) (responses : Nat → ModelResponse)
    (phone : String) (k : Nat) (c : String) (tcs : List ToolCall) (hk : k < 5)
    (hwf : ∀ i, i < k → wfToolResp (responses i))
    (hresp : responses k = .assistant c tcs)
    (hbad : ∃ tc ∈ tcs, tc.args = none) :
    (∀ (idn nm : String) (rest : List ToolCall) (msgs : List Msg)
      (disp : List (String × ArgsObj)),
      processToolCalls exec phone ({ id := idn, name := nm, args := none } :: rest) msgs disp
        = .error ()) ∧
    (∀ messages, (run_agent_loop exec responses messages phone 5).result = .error ()) ∧
    (∀ (st : MemState) (userMessage systemPrompt ts1 ts2 : String) (o1 o2 : Bool),
      process_message exec responses st userMessage phone systemPrompt ts1 ts2 o1 o2
        = (processingErrorText, st)) := by
  have hloop : ∀ messages, (run_agent_loop exec responses messages phone 5).result
      = .error () := by
    intro messages
    obtain ⟨msgs', disp', heq⟩ := runLoopAux_wf_lead exec responses phone k 0 5 messages []
      (fun i hi => by rw [Nat.zero_add]; exact hwf i hi) (by omega)
    unfold run_agent_loop
    rw [heq]
    obtain ⟨f, hf⟩ : ∃ f, 5 - k = f + 1 := ⟨5 - k - 1, by omega⟩
    rw [hf]
    cases tcs with
    | nil =>
      obtain ⟨tc, htc, _⟩ := hbad
      exact absurd htc (List.not_mem_nil tc)
    | cons hd tl =>
      rw [runLoopAux_tools_error exec responses phone msgs' (0 + k) f disp'
        (by rw [Nat.zero_add]; exact hresp)
        (processToolCalls_error exec phone (hd :: tl) _ _ hbad)]
  refine ⟨?_, hloop, ?_⟩
  · intro idn nm rest msgs disp
    simp [processToolCalls]
  · intro st userMessage systemPrompt ts1 ts2 o1 o2
    exact process_message_error exec responses st userMessage phone systemPrompt ts1 ts2 o1 o2
      (hloop _)

/-- Witness for C10: the constant bad-JSON gateway makes a full turn
return the apology and leave the store untouched. -/
theorem invalid_json_c10_witness :
    process_message exec₀ responses₀ st₀ ("Привет") ("87001112233") ("sys")
      ("t1") ("t2") false false = (processingErrorText, st₀) :=
  (invalid_json_c10 exec₀ responses₀ ("87001112233") 0 ("")
    [{ id := "call_1", name := "get_current_date", args := none }] (by omega)
    (fun i hi => absurd hi (by omega)) rfl
    ⟨{ id := "call_1", name := "get_current_date", args := none }, by simp, rfl⟩).2.2
    st₀ ("Привет") ("sys") ("t1") ("t2") false false

/-- C7, counterexample to the claim as stated: with the durable tier
disabled and a non-empty hot tier, `get_full_history_from_db` returns the
hot-tier history, not the empty list. -/
theorem full_history_c7_counterexample :
    stHot.dbEnabled = false ∧
    get_full_history_from_db stHot ("87001112233") 1000
      = [HistEntry.hotMsg ⟨"user", "hi", "t0"⟩] ∧
    get_full_history_from_db stHot ("87001112233") 1000 ≠ [] :=
  ⟨rfl, by decide, by decide⟩

/-- C7 (amended): when the durable tier is enabled the read comes from it
alone (the result is invariant under any change of the hot store); when
the durable tier is disabled the call falls back to the hot-tier history
(invariant under any change of the durable log) instead of returning an
empty list. -/
theorem full_history_source_c7 (st : MemState) (p : String) (limit : Nat) :
    (st.dbEnabled = true → ∀ f,
      get_full_history_from_db { st with store := f } p limit
        = (db_get_chat_history true st.dbLog p limit).map .dbRow) ∧
    (st.dbEnabled = false → ∀ log,
      get_full_history_from_db { st with dbLog := log } p limit
        = (get_chat_history st p).map .hotMsg) := by
  constructor
  · intro h f
    simp [get_full_history_from_db, h]
  · intro h log
    simp [get_full_history_from_db, h, get_chat_history]

/-- Witness for the amended C7: with the durable tier enabled the result
is the durable row even when the hot tier holds something else. -/
theorem full_history_source_c7_witness :
    get_full_history_from_db { stDb with store := fun _ => [⟨"user", "x", "t9"⟩] }
      ("87001112233") 1000
      = [HistEntry.dbRow ⟨"87001112233", "user", "hi"⟩] := by
  have h := (full_history_source_c7 stDb ("87001112233") 1000).1 rfl
    (fun _ => [⟨"user", "x", "t9"⟩])
  rw [h]
  decide

end Caravan
